import Mathlib

/-!
Verification of the worker-pool core of the smartquote backend
(src/dist/src/services/PythonInterpretationProcessor.js).

The JavaScript classes PersistentWorker and PythonInterpretationProcessor
are shallowly embedded: every mutable object becomes an explicit state
record, every event handler becomes a pure function from state to state
together with the list of task resolutions it performs, the number of
forceful kill signals it sends, and whether it invoked the pool's
free-worker callback.  Timestamps (Date.now) are passed in explicitly as
integers; setTimeout timers are modelled by Option-valued deadlines, and a
timer firing is an explicit event that is only enabled while the deadline
is armed (clearTimeout disarms it).  JSON.parse is an external library
call and is modelled by an arbitrary parse function parameter; writes to
the child process stdin are modelled by an explicit success flag (the
pool-level pump instantiates it with a successful write, matching the
non-throwing behaviour of Node stream writes).
-/

namespace SQ

/-- The first character of a JSON object line (written with an escape so the
brace stays out of source text). -/
def lbraceChar : Char := '\x7b'

/-- The first character of a JSON array line. -/
def lbrackChar : Char := '['

/-- The line terminator used by the stdout framing loop. -/
def nlChar : Char := '\n'

/-- Error message used when a task is assigned to a worker whose process
handle or stdin pipe is missing. -/
def workerNotReadyMsg : String := "Worker not ready"

/-- Error message used when the per-task timeout fires. -/
def taskTimeoutMsg : String := "Task timeout"

/-- Error message used when writing the envelope to stdin throws
(the dynamic exception text appended by the source is elided). -/
def stdinWriteFailedMsg : String := "stdin write failed"

/-- Status value that marks a successful Result. -/
def successStatus : String := "success"

/-- Error message text used by the close handler
(the source appends the numeric exit code). -/
def workerExitedMsg (code : Int) : String := "Worker exited, code " ++ toString code

/-- Error message text used by the process error handler. -/
def workerErrorMsg (msg : String) : String := "Worker error: " ++ msg

/-- A queued unit of work: the rid generated at submission, the opaque
interpretation payload, and the mutable start timestamp field written by
assign. -/
structure Task where
  rid : Nat
  interpretation : Nat
  start : Int := 0
deriving DecidableEq, Repr

/-- The parsed JSON Result read back from a worker.  Only the fields the
code inspects are structured (status, error and the embedded execution
time hint, which is None when the field is null or absent); extra stands
for all additional fields, which are carried through verbatim. -/
structure ResultJson where
  status : Option String := none
  error : Option String := none
  tHint : Option Int := none
  extra : Nat := 0
deriving DecidableEq, Repr

/-- The value a task's outcome handle is resolved with. -/
structure Outcome where
  success : Bool
  result : Option ResultJson := none
  error : Option String := none
  executionTime : Int := 0
deriving DecidableEq, Repr

/-- The mutable state of one PersistentWorker.  procAlive models the proc
field being non-null (in which case its stdin pipe is also available);
currentTimeout and idleTimer hold the deadline of the armed timer, None
when cleared; respawnPending models the 500 ms delayed spawn scheduled by
respawn. -/
structure WorkerState where
  procAlive : Bool
  busy : Bool
  stdoutBuffer : List Char
  currentTask : Option Task
  currentTimeout : Option Int
  idleTimer : Option Int
  shouldRespawn : Bool
  respawnPending : Bool
deriving DecidableEq, Repr

/-- The state a PersistentWorker has right after its constructor ran
spawn: a live process, not busy, empty buffer, no task, no timers. -/
def freshWorker : WorkerState :=
  { procAlive := true
    busy := false
    stdoutBuffer := []
    currentTask := none
    currentTimeout := none
    idleTimer := none
    shouldRespawn := true
    respawnPending := false }

/-- PersistentWorker.respawn: clears the process handle, the busy flag and
the stdout buffer, and schedules a delayed spawn iff shouldRespawn is
set.  It does not touch currentTask, the timers or shouldRespawn. -/
def respawn (w : WorkerState) : WorkerState :=
  { w with procAlive := false
           busy := false
           stdoutBuffer := []
           respawnPending := w.shouldRespawn }

/-- The delayed spawn scheduled by respawn actually running: only enabled
while a respawn is pending; brings a live process back. -/
def spawnDoneW (w : WorkerState) : WorkerState :=
  if w.respawnPending then { w with procAlive := true, respawnPending := false } else w

/-- PersistentWorker.failCurrent: clears the timeout timer, detaches the
current task, marks the worker idle, resolves the detached task (if any)
as a failure, and notifies the pool (the Bool output; the source calls
onWorkerFree unconditionally). -/
def failCurrent (w : WorkerState) (err : String) :
    WorkerState × List (Nat × Outcome) × Bool :=
  let outs : List (Nat × Outcome) :=
    match w.currentTask with
    | some t => [(t.rid, { success := false, error := some err, executionTime := 0 })]
    | none => []
  ({ w with currentTimeout := none, currentTask := none, busy := false }, outs, true)

/-- JavaScript String.trim on the character list of a line. -/
def jsTrim (s : List Char) : List Char :=
  ((s.dropWhile Char.isWhitespace).reverse.dropWhile Char.isWhitespace).reverse

/-- PersistentWorker.handleResultLine, parameterised by the external
JSON.parse (None models a parse exception).  Returns the new worker
state, the resolutions performed, and whether onWorkerFree was called.
A line whose first non-space character is not a brace or bracket is only
logged; a parse failure is only logged; a parsed Result with no current
task is only logged; otherwise the task is detached, the timeout cleared,
and the task resolved from the parsed Result. -/
def handleResultLine (parse : List Char → Option ResultJson) (w : WorkerState)
    (line : List Char) (now : Int) :
    WorkerState × List (Nat × Outcome) × Bool :=
  let trimmed := jsTrim line
  let first := trimmed.head?
  if first ≠ some lbraceChar ∧ first ≠ some lbrackChar then
    (w, [], false)
  else
    match parse trimmed with
    | none => (w, [], false)
    | some parsed =>
      match w.currentTask with
      | none => (w, [], false)
      | some task =>
        let w' := { w with currentTask := none, busy := false, currentTimeout := none }
        let executionTime : Int :=
          match parsed.tHint with
          | some v => v
          | none => now - task.start
        (w', [(task.rid,
               { success := parsed.status == some successStatus
                 result := some parsed
                 error := parsed.error
                 executionTime := executionTime })], true)

/-- PersistentWorker.assign, with the outcome of the stdin write passed in
as writeOk (Node stream writes do not throw in the happy path; the pump
instantiates writeOk with true).  A worker without a live process resolves
the task immediately as not ready; otherwise the idle timer is cancelled,
the worker becomes busy with the task (its start stamped now) and a
timeout timer is armed; a failed write runs failCurrent. -/
def assignW (w : WorkerState) (t : Task) (now tmo : Int) (writeOk : Bool) :
    WorkerState × List (Nat × Outcome) × Bool :=
  if ¬ w.procAlive then
    (w, [(t.rid, { success := false, error := some workerNotReadyMsg, executionTime := 0 })],
     false)
  else
    let w1 : WorkerState :=
      { w with idleTimer := none
               busy := true
               currentTask := some { t with start := now }
               currentTimeout := some (now + tmo) }
    if writeOk then (w1, [], false)
    else failCurrent w1 stdinWriteFailedMsg

/-- PersistentWorker.scheduleScaleDown: a non-positive ttl does nothing;
otherwise any armed idle timer is cleared and a fresh one armed with
deadline now + ttl. -/
def scheduleScaleDown (w : WorkerState) (now ttl : Int) : WorkerState :=
  if ttl ≤ 0 then w else { w with idleTimer := some (now + ttl) }

/-- The timeout timer firing: only enabled while armed; sends SIGKILL to
the process if one is live (the Nat output counts kill signals) and runs
failCurrent with the timeout error. -/
def timeoutFireW (w : WorkerState) :
    WorkerState × List (Nat × Outcome) × Nat × Bool :=
  match w.currentTimeout with
  | none => (w, [], 0, false)
  | some _ =>
    let kills := if w.procAlive then 1 else 0
    let (w', outs, freed) := failCurrent { w with currentTimeout := none } taskTimeoutMsg
    (w', outs, kills, freed)

/-- The idle scale-down timer firing: only enabled while armed; a busy
worker ignores it; an idle worker has its respawn flag disabled and its
process killed. -/
def idleFireW (w : WorkerState) : WorkerState × Nat :=
  match w.idleTimer with
  | none => (w, 0)
  | some _ =>
    let w1 := { w with idleTimer := none }
    if w1.busy then (w1, 0)
    else
      let kills := if w1.procAlive then 1 else 0
      ({ w1 with shouldRespawn := false }, kills)

/-- The worker-local part of the close handler: failCurrent with the exit
message, then respawn.  (At pool level the onWorkerFree callback fires
between the two; see poolClose.) -/
def closeW (w : WorkerState) (code : Int) :
    WorkerState × List (Nat × Outcome) × Bool :=
  let (w1, outs, freed) := failCurrent w (workerExitedMsg code)
  (respawn w1, outs, freed)

/-- The worker-local part of the process error handler: failCurrent with
the error message, then respawn. -/
def errorW (w : WorkerState) (msg : String) :
    WorkerState × List (Nat × Outcome) × Bool :=
  let (w1, outs, freed) := failCurrent w (workerErrorMsg msg)
  (respawn w1, outs, freed)

/-- The indexOf / slice pair of the stdout data handler: the prefix of the
buffer before its first newline together with the rest after it, None when
the buffer holds no newline. -/
def splitFirstNL : List Char → Option (List Char × List Char)
  | [] => none
  | c :: cs =>
    if c = nlChar then some ([], cs)
    else
      match splitFirstNL cs with
      | none => none
      | some (l, r) => some (c :: l, r)

theorem splitFirstNL_length_lt {s l r : List Char}
    (h : splitFirstNL s = some (l, r)) : r.length < s.length := by
  induction s generalizing l r with
  | nil => simp [splitFirstNL] at h
  | cons c cs ih =>
    simp only [splitFirstNL] at h
    split at h
    · cases h
      simp
    · cases hs : splitFirstNL cs with
      | none => rw [hs] at h; cases h
      | some p =>
        rw [hs] at h
        cases p with
        | mk l' r' =>
          cases h
          exact Nat.lt_trans (ih hs) (Nat.lt_succ_self _)

/-- The while loop of the stdout data handler: repeatedly extract the
segment before the first newline, keeping the trailing newline-free
remainder in the buffer. -/
def extractLines (s : List Char) : List (List Char) × List Char :=
  match h : splitFirstNL s with
  | none => ([], s)
  | some (l, r) =>
    let p := extractLines r
    (l :: p.1, p.2)
termination_by s.length
decreasing_by exact splitFirstNL_length_lt h

/-- The lines a buffer hands to handleResultLine: each extracted segment
is trimmed and blank segments are skipped. -/
def handedLines (s : List Char) : List (List Char) :=
  ((extractLines s).1.map jsTrim).filter (fun l => l ≠ [])

/-- One stdout data event: append the chunk to the buffer, extract the
complete lines, keep the remainder buffered. -/
def feedChunk (st : List (List Char) × List Char) (chunk : List Char) :
    List (List Char) × List Char :=
  let r := extractLines (st.2 ++ chunk)
  (st.1 ++ r.1, r.2)

/-- Feeding a whole sequence of stdout chunks from an initially empty
buffer, accumulating the raw extracted segments. -/
def feedAll (chunks : List (List Char)) : List (List Char) × List Char :=
  chunks.foldl feedChunk ([], [])

/-- Rebuild a stream from extracted newline-terminated segments and a
trailing remainder. -/
def mkStream (ls : List (List Char)) (r : List Char) : List Char :=
  (ls.map (fun l => l ++ [nlChar])).flatten ++ r

/-- The mutable state of the PythonInterpretationProcessor pool: the
configuration, the FIFO task queue and the workers in creation order. -/
structure PoolState where
  minPool : Nat
  maxPool : Nat
  taskTimeoutMs : Int
  idleTtlMs : Int
  queue : List Task
  workers : List WorkerState
deriving DecidableEq, Repr

/-- The for loop of pump: walk the workers in creation order, break when
the queue is empty, skip busy workers, and hand the popped queue head to
assign (the stdin write succeeding).  Returns the updated workers, the
remaining queue and the resolutions performed. -/
def pumpScan (now tmo : Int) :
    List WorkerState → List Task →
      List WorkerState × List Task × List (Nat × Outcome)
  | [], q => ([], q, [])
  | w :: ws, [] => (w :: ws, [], [])
  | w :: ws, t :: q =>
    if w.busy then
      let p := pumpScan now tmo ws (t :: q)
      (w :: p.1, p.2.1, p.2.2)
    else
      let a := assignW w t now tmo true
      let p := pumpScan now tmo ws q
      (a.1 :: p.1, p.2.1, a.2.1 ++ p.2.2)

/-- PythonInterpretationProcessor.pump: the assignment scan followed by
the bounded scale-up step, which creates exactly one fresh worker when the
queue is still non-empty, every worker is busy and the pool is below
maxPool, and then stops. -/
def pump (p : PoolState) (now : Int) : PoolState × List (Nat × Outcome) :=
  let s := pumpScan now p.taskTimeoutMs p.workers p.queue
  let ws :=
    if s.2.1 ≠ [] ∧ s.1.all (fun w => w.busy) ∧ s.1.length < p.maxPool then
      s.1 ++ [freshWorker]
    else s.1
  ({ p with workers := ws, queue := s.2.1 }, s.2.2)

/-- PythonInterpretationProcessor.onWorkerFree: pump, then arm the idle
scale-down timer of every idle worker while the pool holds more workers
than minPool. -/
def onWorkerFree (p : PoolState) (now : Int) : PoolState × List (Nat × Outcome) :=
  let r := pump p now
  let p1 := r.1
  let ws :=
    if p1.workers.length > p1.minPool then
      p1.workers.map (fun w => if ¬ w.busy then scheduleScaleDown w now p1.idleTtlMs else w)
    else p1.workers
  ({ p1 with workers := ws }, r.2)

/-- PythonInterpretationProcessor.processInterpretation: push a new task
with a fresh rid at the tail of the queue and pump. -/
def processInterpretation (p : PoolState) (rid payload : Nat) (now : Int) :
    PoolState × List (Nat × Outcome) :=
  pump { p with queue := p.queue ++ [{ rid := rid, interpretation := payload }] } now

/-- The idle scale-down timer of worker i firing, at pool level: the idle
callback touches only the worker itself and does not notify the pool. -/
def poolIdleFire (p : PoolState) (i : Nat) : PoolState × Nat :=
  match p.workers[i]? with
  | none => (p, 0)
  | some w =>
    let r := idleFireW w
    ({ p with workers := p.workers.set i r.1 }, r.2)

/-- The close event of worker i's process, at pool level, in source
order: failCurrent (which synchronously calls onWorkerFree, letting pump
re-enter the very worker being torn down) and only then respawn on the
worker's then-current state. -/
def poolClose (p : PoolState) (i : Nat) (code : Int) (now : Int) :
    PoolState × List (Nat × Outcome) :=
  match p.workers[i]? with
  | none => (p, [])
  | some w =>
    if ¬ w.procAlive then (p, [])
    else
      let f := failCurrent w (workerExitedMsg code)
      let p1 := { p with workers := p.workers.set i f.1 }
      let r := onWorkerFree p1 now
      let p2 := r.1
      let p3 :=
        match p2.workers[i]? with
        | some wi => { p2 with workers := p2.workers.set i (respawn wi) }
        | none => p2
      (p3, f.2.1 ++ r.2)

/-- The events one worker can react to, at the granularity of the
individual PersistentWorker methods, so that the reentrant callback
orders that arise at pool level (failCurrent, then a fresh assignment,
then respawn) are all expressible as event sequences. -/
inductive WEvent where
  | assignT (t : Task) (now tmo : Int) (writeOk : Bool)
  | lineIn (line : List Char) (now : Int)
  | timeoutFire
  | idleFire
  | scaleDownE (now ttl : Int)
  | failE (err : String)
  | respawnE
  | spawnDone
deriving DecidableEq, Repr

/-- One worker-machine step: dispatch the event to the embedded handler
and surface the resolutions it performed. -/
def stepW (parse : List Char → Option ResultJson) (w : WorkerState) :
    WEvent → WorkerState × List (Nat × Outcome)
  | .assignT t now tmo writeOk =>
    let r := assignW w t now tmo writeOk
    (r.1, r.2.1)
  | .lineIn line now =>
    let r := handleResultLine parse w line now
    (r.1, r.2.1)
  | .timeoutFire =>
    let r := timeoutFireW w
    (r.1, r.2.1)
  | .idleFire => ((idleFireW w).1, [])
  | .scaleDownE now ttl => (scheduleScaleDown w now ttl, [])
  | .failE err =>
    let r := failCurrent w err
    (r.1, r.2.1)
  | .respawnE => (respawn w, [])
  | .spawnDone => (spawnDoneW w, [])

/-- Run the worker machine over an event sequence, accumulating every
resolution in order. -/
def runW (parse : List Char → Option ResultJson) (w : WorkerState) :
    List WEvent → WorkerState × List (Nat × Outcome)
  | [] => (w, [])
  | e :: es =>
    let r := stepW parse w e
    let rest := runW parse r.1 es
    (rest.1, r.2 ++ rest.2)

/-- The rids carried by the assignment events of a sequence, in order. -/
def assignRids : List WEvent → List Nat
  | [] => []
  | .assignT t _ _ _ :: es => t.rid :: assignRids es
  | _ :: es => assignRids es

theorem extractLines_of_none {s : List Char} (h : splitFirstNL s = none) :
    extractLines s = ([], s) := by
  conv_lhs => rw [extractLines]
  split
  · rfl
  · next l r heq => rw [h] at heq; cases heq

theorem extractLines_of_some {s l r : List Char} (h : splitFirstNL s = some (l, r)) :
    extractLines s = (l :: (extractLines r).1, (extractLines r).2) := by
  conv_lhs => rw [extractLines]
  split
  · next heq => rw [h] at heq; cases heq
  · next l' r' heq =>
    rw [h] at heq
    cases heq
    rfl

theorem splitFirstNL_none_iff {s : List Char} :
    splitFirstNL s = none ↔ nlChar ∉ s := by
  induction s with
  | nil => simp [splitFirstNL]
  | cons c cs ih =>
    simp only [splitFirstNL]
    split
    · simp_all
    · cases hs : splitFirstNL cs with
      | none => simp_all [eq_comm]
      | some p => simp_all [eq_comm]

theorem splitFirstNL_append_some {a b l r : List Char}
    (h : splitFirstNL a = some (l, r)) :
    splitFirstNL (a ++ b) = some (l, r ++ b) := by
  induction a generalizing l r with
  | nil => simp [splitFirstNL] at h
  | cons c cs ih =>
    simp only [splitFirstNL] at h ⊢
    split at h
    · cases h
      simp_all
    · cases hs : splitFirstNL cs with
      | none => rw [hs] at h; cases h
      | some p =>
        rw [hs] at h
        cases p with
        | mk l' r' =>
          cases h
          simp_all [ih hs]

theorem splitFirstNL_append_none {a b : List Char}
    (h : splitFirstNL a = none) :
    splitFirstNL (a ++ b) =
      (splitFirstNL b).map (fun p => (a ++ p.1, p.2)) := by
  induction a with
  | nil => cases hb : splitFirstNL b <;> simp_all
  | cons c cs ih =>
    simp only [List.cons_append]
    simp only [splitFirstNL] at h ⊢
    split at h
    · cases h
    · cases hs : splitFirstNL cs with
      | none =>
        rw [ih hs]
        cases hb : splitFirstNL b <;> simp_all
      | some p => rw [hs] at h; cases h

theorem extractLines_append (a b : List Char) :
    extractLines (a ++ b) =
      ((extractLines a).1 ++ (extractLines ((extractLines a).2 ++ b)).1,
       (extractLines ((extractLines a).2 ++ b)).2) := by
  induction a using extractLines.induct with
  | case1 s h =>
    simp [extractLines_of_none h]
  | case2 s l r h ih =>
    rw [extractLines_of_some h,
        extractLines_of_some (splitFirstNL_append_some h), ih]
    simp

theorem extractLines_no_nl (s : List Char) : nlChar ∉ (extractLines s).2 := by
  induction s using extractLines.induct with
  | case1 s h =>
    rw [extractLines_of_none h]
    exact splitFirstNL_none_iff.mp h
  | case2 s l r h ih =>
    rw [extractLines_of_some h]
    exact ih

theorem splitFirstNL_decomp {s l r : List Char} (h : splitFirstNL s = some (l, r)) :
    s = l ++ nlChar :: r := by
  induction s generalizing l r with
  | nil => simp [splitFirstNL] at h
  | cons c cs ih =>
    simp only [splitFirstNL] at h
    split at h
    · cases h
      simp_all
    · cases hs : splitFirstNL cs with
      | none => rw [hs] at h; cases h
      | some p =>
        rw [hs] at h
        cases p with
        | mk l' r' =>
          cases h
          simp [ih hs]

theorem extractLines_mkStream (s : List Char) :
    mkStream (extractLines s).1 (extractLines s).2 = s := by
  induction s using extractLines.induct with
  | case1 s h =>
    rw [extractLines_of_none h]
    simp [mkStream]
  | case2 s l r h ih =>
    rw [extractLines_of_some h]
    simp only [mkStream, List.map_cons, List.flatten_cons] at ih ⊢
    rw [List.append_assoc, ih, List.append_assoc]
    exact (splitFirstNL_decomp h).symm

theorem feedAll_from (chunks : List (List Char)) (acc : List (List Char))
    (buf : List Char) (hbuf : nlChar ∉ buf) :
    chunks.foldl feedChunk (acc, buf) =
      (acc ++ (extractLines (buf ++ chunks.flatten)).1,
       (extractLines (buf ++ chunks.flatten)).2) := by
  induction chunks generalizing acc buf with
  | nil =>
    have h0 : splitFirstNL buf = none := splitFirstNL_none_iff.mpr hbuf
    simp [extractLines_of_none h0]
  | cons c cs ih =>
    simp only [List.foldl_cons, List.flatten_cons, feedChunk]
    rw [ih _ _ (extractLines_no_nl (buf ++ c)), ← List.append_assoc buf c,
        extractLines_append (buf ++ c) cs.flatten]
    simp [List.append_assoc]

/-- Claim C9.  Chunk-boundary independence of the stdout framing: feeding
any chunking of a byte stream through the data handler extracts the same
raw segments, hence hands the same trimmed non-blank lines to line
processing, as splitting the whole concatenated stream at once; the final
buffer is exactly the newline-free remainder after the last newline of
the stream, and lines plus remainder reconstruct the stream. -/
theorem framing_chunk_independent (chunks : List (List Char)) :
    (feedAll chunks).1 = (extractLines chunks.flatten).1
    ∧ ((feedAll chunks).1.map jsTrim).filter (fun l => l ≠ []) =
        handedLines chunks.flatten
    ∧ (feedAll chunks).2 = (extractLines chunks.flatten).2
    ∧ nlChar ∉ (feedAll chunks).2
    ∧ mkStream (extractLines chunks.flatten).1 (extractLines chunks.flatten).2 =
        chunks.flatten := by
  have h := feedAll_from chunks [] [] (by simp)
  simp only [List.nil_append] at h
  refine ⟨?_, ?_, ?_, ?_, ?_⟩
  · rw [feedAll, h]
  · rw [feedAll, h]
    simp [handedLines]
  · rw [feedAll, h]
  · rw [feedAll, h]
    exact extractLines_no_nl _
  · exact extractLines_mkStream _

/-- The worker invariant asserted by the spec: a current task is present
exactly while the busy flag is set. -/
def invW (w : WorkerState) : Prop := w.currentTask ≠ none ↔ w.busy = true

/-- A concrete task used in witnesses. -/
def tk0 : Task := { rid := 7, interpretation := 3, start := 20 }

/-- A concrete parsed Result used in witnesses. -/
def rj0 : ResultJson := { status := some successStatus, tHint := some 5 }

/-- A concrete well-formed result line used in witnesses. -/
def resLine0 : String := "[1]"

/-- A concrete JSON-looking line on which parsing fails, used in
witnesses. -/
def badLine0 : String := "[2]"

/-- A concrete stand-in for JSON.parse used in witnesses: parses resLine0
to rj0 and fails on everything else. -/
def parse0 : List Char → Option ResultJson :=
  fun s => if s = resLine0.data then some rj0 else none

/-- A concrete busy worker holding tk0, used in witnesses. -/
def w0 : WorkerState :=
  { freshWorker with busy := true, currentTask := some tk0, currentTimeout := some 120 }

/-- A concrete idle worker with an armed idle timer of deadline 100, used
in the scale-down counterexample and witnesses. -/
def wIdle0 : WorkerState := { freshWorker with idleTimer := some 100 }

/-- Claim C3.  A successfully parsed Result line delivered to a worker
with a current task clears the timeout timer, detaches the task and marks
the worker idle, invokes the free notification, and resolves the task
with success iff the status field is the success marker, the full parsed
Result and its error field carried through, and execution time taken from
the embedded hint when present, else wall clock since assignment. -/
theorem result_line_completion (parse : List Char → Option ResultJson)
    (w : WorkerState) (line : List Char) (now : Int) (task : Task)
    (parsed : ResultJson)
    (hTask : w.currentTask = some task)
    (hHead : (jsTrim line).head? = some lbraceChar ∨ (jsTrim line).head? = some lbrackChar)
    (hParse : parse (jsTrim line) = some parsed) :
    (handleResultLine parse w line now).1.currentTimeout = none
    ∧ (handleResultLine parse w line now).1.busy = false
    ∧ (handleResultLine parse w line now).1.currentTask = none
    ∧ (handleResultLine parse w line now).2.2 = true
    ∧ (handleResultLine parse w line now).2.1 =
        [(task.rid,
          { success := parsed.status == some successStatus
            result := some parsed
            error := parsed.error
            executionTime :=
              match parsed.tHint with
              | some v => v
              | none => now - task.start })]
    ∧ (∀ o : Outcome, (task.rid, o) ∈ (handleResultLine parse w line now).2.1 →
        (o.success = true ↔ parsed.status = some successStatus)) := by
  have hcond : ¬((jsTrim line).head? ≠ some lbraceChar ∧
      (jsTrim line).head? ≠ some lbrackChar) := by
    rcases hHead with h | h <;> simp [h]
  simp only [handleResultLine, if_neg hcond, hParse, hTask]
  refine ⟨trivial, trivial, trivial, trivial, trivial, ?_⟩
  intro o ho
  simp only [List.mem_singleton, Prod.mk.injEq] at ho
  rw [ho.2]
  simp

/-- Witness for C3 at concrete inputs. -/
theorem result_line_completion_witness :
    (handleResultLine parse0 w0 resLine0.data 25).2.1 =
      [(7, { success := true, result := some rj0, error := none, executionTime := 5 })]
    ∧ (handleResultLine parse0 w0 resLine0.data 25).1.busy = false := by
  have h := result_line_completion parse0 w0 resLine0.data 25 tk0 rj0
    (by decide) (Or.inr (by decide)) (by decide)
  exact ⟨h.2.2.2.2.1.trans (by decide), h.2.1⟩

/-- Claim C5.  Lines that are not a parsed Result never change worker or
task state: a line whose first non-space character is not a brace or
bracket is only logged; a JSON-looking line that fails to parse is only
logged and the current task stays assigned; a parsed Result with no
current task is discarded; consequently a malformed JSON-looking line
followed by a valid Result line behaves exactly as the valid line alone,
and the malformed line produces no task failure. -/
theorem noise_lines_harmless (parse : List Char → Option ResultJson)
    (w : WorkerState) (l1 l2 : List Char) (now1 now2 : Int) :
    (((jsTrim l1).head? ≠ some lbraceChar ∧ (jsTrim l1).head? ≠ some lbrackChar) →
      handleResultLine parse w l1 now1 = (w, [], false))
    ∧ (parse (jsTrim l1) = none →
      handleResultLine parse w l1 now1 = (w, [], false))
    ∧ (w.currentTask = none →
      handleResultLine parse w l1 now1 = (w, [], false))
    ∧ (parse (jsTrim l1) = none →
      handleResultLine parse (handleResultLine parse w l1 now1).1 l2 now2 =
        handleResultLine parse w l2 now2
      ∧ (handleResultLine parse w l1 now1).2.1 = []) := by
  refine ⟨?_, ?_, ?_, ?_⟩
  · intro h
    simp only [handleResultLine, if_pos h]
  · intro h
    by_cases hc : (jsTrim l1).head? ≠ some lbraceChar ∧ (jsTrim l1).head? ≠ some lbrackChar
    · simp only [handleResultLine, if_pos hc]
    · simp only [handleResultLine, if_neg hc, h]
  · intro h
    by_cases hc : (jsTrim l1).head? ≠ some lbraceChar ∧ (jsTrim l1).head? ≠ some lbrackChar
    · simp only [handleResultLine, if_pos hc]
    · cases hp : parse (jsTrim l1) with
      | none => simp only [handleResultLine, if_neg hc, hp]
      | some parsed => simp only [handleResultLine, if_neg hc, hp, h]
  · intro h
    have hfix : handleResultLine parse w l1 now1 = (w, [], false) := by
      by_cases hc : (jsTrim l1).head? ≠ some lbraceChar ∧ (jsTrim l1).head? ≠ some lbrackChar
      · simp only [handleResultLine, if_pos hc]
      · simp only [handleResultLine, if_neg hc, h]
    rw [hfix]
    exact ⟨rfl, rfl⟩

/-- Witness for C5 at concrete inputs: the malformed line badLine0 leaves
the busy worker untouched and the following valid line resolves the task
exactly as if the malformed line had never arrived. -/
theorem noise_lines_harmless_witness :
    handleResultLine parse0 w0 badLine0.data 21 = (w0, [], false)
    ∧ handleResultLine parse0 (handleResultLine parse0 w0 badLine0.data 21).1
        resLine0.data 25 = handleResultLine parse0 w0 resLine0.data 25 := by
  have h := noise_lines_harmless parse0 w0 badLine0.data resLine0.data 21 25
  exact ⟨h.2.1 (by decide), (h.2.2.2 (by decide)).1⟩

/-- Counterexample to claim C7 as stated: rearming the already-armed idle
timer of wIdle0 is not a no-op, the worker state changes (its deadline
moves). -/
theorem rearm_not_noop : scheduleScaleDown wIdle0 50 100 ≠ wIdle0 := by decide

/-- Claim C7, amended.  Rearming an armed idle timer replaces it: the new
deadline is the rearm time plus the ttl; and an assignment to a live
worker cancels the armed timer. -/
theorem rearm_replaces_deadline (w : WorkerState) (now ttl d : Int)
    (hArm : w.idleTimer = some d) (hPos : 0 < ttl) :
    (scheduleScaleDown w now ttl).idleTimer = some (now + ttl)
    ∧ (∀ (t : Task) (n tmo : Int) (wo : Bool), w.procAlive = true →
        (assignW (scheduleScaleDown w now ttl) t n tmo wo).1.idleTimer = none) := by
  have hns : ¬ ttl ≤ 0 := not_le.mpr hPos
  constructor
  · simp [scheduleScaleDown, if_neg hns]
  · intro t n tmo wo hAlive
    simp only [scheduleScaleDown, if_neg hns]
    simp only [assignW, hAlive]
    cases wo <;> simp [failCurrent]

/-- Witness for amended C7 at concrete inputs. -/
theorem rearm_replaces_deadline_witness :
    (scheduleScaleDown wIdle0 50 100).idleTimer = some 150
    ∧ (assignW (scheduleScaleDown wIdle0 50 100) tk0 60 120 true).1.idleTimer = none := by
  have h := rearm_replaces_deadline wIdle0 50 100 100 (by decide) (by decide)
  exact ⟨h.1, h.2 tk0 60 120 true (by decide)⟩

/-- Claim C4.  The per-task timeout firing on a worker with a live
process and a current task sends exactly one forceful kill signal,
resolves the task as a failure with the timeout error and a free
notification, and the subsequent process close event takes the crash path
with automatic respawn still enabled, after which the delayed spawn
brings the process back. -/
theorem timeout_kills_once_and_respawns (w : WorkerState) (task : Task) (d : Int)
    (hTask : w.currentTask = some task)
    (hArm : w.currentTimeout = some d)
    (hAlive : w.procAlive = true)
    (hShould : w.shouldRespawn = true) :
    (timeoutFireW w).2.2.1 = 1
    ∧ (timeoutFireW w).2.1 =
        [(task.rid, { success := false, error := some taskTimeoutMsg, executionTime := 0 })]
    ∧ (timeoutFireW w).1.busy = false
    ∧ (timeoutFireW w).1.currentTask = none
    ∧ (timeoutFireW w).2.2.2 = true
    ∧ (∀ code : Int,
        (closeW (timeoutFireW w).1 code).2.1 = []
        ∧ (closeW (timeoutFireW w).1 code).1.respawnPending = true
        ∧ (spawnDoneW (closeW (timeoutFireW w).1 code).1).procAlive = true) := by
  simp only [timeoutFireW, hArm, failCurrent, hAlive, hTask]
  refine ⟨by simp, by simp, by simp, by simp, by simp, ?_⟩
  intro code
  simp [closeW, failCurrent, respawn, spawnDoneW, hShould]

/-- Witness for C4 at concrete inputs. -/
theorem timeout_kills_once_and_respawns_witness :
    (timeoutFireW w0).2.2.1 = 1
    ∧ (timeoutFireW w0).2.1 =
        [(7, { success := false, error := some taskTimeoutMsg, executionTime := 0 })]
    ∧ (spawnDoneW (closeW (timeoutFireW w0).1 9).1).procAlive = true := by
  have h := timeout_kills_once_and_respawns w0 tk0 120 (by decide) (by decide)
    (by decide) (by decide)
  exact ⟨h.1, h.2.1, (h.2.2.2.2.2 9).2.2⟩

@[simp] theorem sSD_procAlive (w : WorkerState) (now ttl : Int) :
    (scheduleScaleDown w now ttl).procAlive = w.procAlive := by
  unfold scheduleScaleDown; split <;> rfl

@[simp] theorem sSD_busy (w : WorkerState) (now ttl : Int) :
    (scheduleScaleDown w now ttl).busy = w.busy := by
  unfold scheduleScaleDown; split <;> rfl

@[simp] theorem sSD_currentTask (w : WorkerState) (now ttl : Int) :
    (scheduleScaleDown w now ttl).currentTask = w.currentTask := by
  unfold scheduleScaleDown; split <;> rfl

@[simp] theorem sSD_shouldRespawn (w : WorkerState) (now ttl : Int) :
    (scheduleScaleDown w now ttl).shouldRespawn = w.shouldRespawn := by
  unfold scheduleScaleDown; split <;> rfl

@[simp] theorem sSD_currentTimeout (w : WorkerState) (now ttl : Int) :
    (scheduleScaleDown w now ttl).currentTimeout = w.currentTimeout := by
  unfold scheduleScaleDown; split <;> rfl

@[simp] theorem sSD_respawnPending (w : WorkerState) (now ttl : Int) :
    (scheduleScaleDown w now ttl).respawnPending = w.respawnPending := by
  unfold scheduleScaleDown; split <;> rfl

theorem pumpScan_nil_queue (now tmo : Int) (ws : List WorkerState) :
    pumpScan now tmo ws [] = (ws, [], []) := by
  cases ws <;> simp [pumpScan]

/-- Claim C8, amended.  Every worker event handler taken in isolation
(assignment with either write outcome, a result line, an explicit
failure, the timeout and idle timers firing, scale-down arming, the
worker-local close and error handlers, and the delayed spawn) preserves
the invariant that a current task is present exactly while the busy flag
is set.  (The pool-level crash path can still violate the invariant; see
the counterexample.) -/
theorem busy_iff_task_preserved (parse : List Char → Option ResultJson)
    (w : WorkerState) (h : invW w) :
    (∀ (t : Task) (now tmo : Int) (wo : Bool), invW (assignW w t now tmo wo).1)
    ∧ (∀ (line : List Char) (now : Int), invW (handleResultLine parse w line now).1)
    ∧ (∀ err : String, invW (failCurrent w err).1)
    ∧ invW (timeoutFireW w).1
    ∧ invW (idleFireW w).1
    ∧ (∀ now ttl : Int, invW (scheduleScaleDown w now ttl))
    ∧ (∀ code : Int, invW (closeW w code).1)
    ∧ (∀ msg : String, invW (errorW w msg).1)
    ∧ invW (spawnDoneW w) := by
  refine ⟨?_, ?_, ?_, ?_, ?_, ?_, ?_, ?_, ?_⟩
  · intro t now tmo wo
    unfold assignW
    split
    · exact h
    · cases wo <;> simp [invW, failCurrent]
  · intro line now
    by_cases hc : (jsTrim line).head? ≠ some lbraceChar ∧ (jsTrim line).head? ≠ some lbrackChar
    · simpa [handleResultLine, if_pos hc] using h
    · cases hp : parse (jsTrim line) with
      | none => simpa [handleResultLine, if_neg hc, hp] using h
      | some parsed =>
        cases ht : w.currentTask with
        | none => simpa [handleResultLine, if_neg hc, hp, ht] using h
        | some task => simp [invW, handleResultLine, if_neg hc, hp, ht]
  · intro err
    simp [invW, failCurrent]
  · unfold timeoutFireW
    split
    · exact h
    · simp [invW, failCurrent]
  · cases ha : w.idleTimer with
    | none => simpa [idleFireW, ha] using h
    | some dd =>
      by_cases hb : w.busy = true
      · simpa [invW, idleFireW, ha, hb] using h
      · simpa [invW, idleFireW, ha, hb] using h
  · intro now ttl
    simpa [invW] using h
  · intro code
    simp [invW, closeW, failCurrent, respawn]
  · intro msg
    simp [invW, errorW, failCurrent, respawn]
  · unfold spawnDoneW
    split
    · simpa [invW] using h
    · exact h

/-- Witness for amended C8 at a concrete worker satisfying the
invariant. -/
theorem busy_iff_task_preserved_witness :
    invW (timeoutFireW w0).1 ∧ invW (spawnDoneW w0) := by
  have h := busy_iff_task_preserved parse0 w0 (by simp [invW, w0, freshWorker, tk0])
  exact ⟨h.2.2.2.1, h.2.2.2.2.2.2.2.2⟩

/-- A concrete task queued behind the crash in the C8 counterexample. -/
def tkA : Task := { rid := 1, interpretation := 0 }

/-- A second concrete task, waiting in the queue. -/
def tkB : Task := { rid := 2, interpretation := 0 }

/-- A concrete live busy worker processing tkA. -/
def wBusy0 : WorkerState :=
  { freshWorker with busy := true, currentTask := some { tkA with start := 10 },
                     currentTimeout := some 110 }

/-- A concrete pool whose single worker is busy while one task waits. -/
def pHot : PoolState :=
  { minPool := 1, maxPool := 2, taskTimeoutMs := 100, idleTtlMs := 300,
    queue := [tkB], workers := [wBusy0] }

/-- Counterexample to claim C8 as stated: when the busy worker of pHot
crashes, the close handler runs failCurrent, whose synchronous free
notification pumps the queued task into the very worker being torn down,
and the subsequent respawn clears the busy flag but not the current task,
so the handler completes with a current task present and busy false. -/
theorem crash_path_breaks_invariant :
    ((poolClose pHot 0 0 50).1.workers[0]?).map
      (fun w => (w.currentTask.isSome, w.busy)) = some (true, false) := by decide

/-- A concrete idle worker with an armed idle timer, second worker of
pScale. -/
def wIdleArmed : WorkerState := { freshWorker with idleTimer := some 300 }

/-- A concrete pool above its minimum with one busy and one idle armed
worker and an empty queue. -/
def pScale : PoolState :=
  { minPool := 1, maxPool := 4, taskTimeoutMs := 100, idleTtlMs := 300,
    queue := [], workers := [wBusy0, wIdleArmed] }

/-- Counterexample to claim C1 as stated: firing the idle timer of the
excess idle worker of pScale and delivering the resulting process exit
leaves the worker list at its old length; the pool worker count does not
decrease by one. -/
theorem scale_down_keeps_count :
    (poolClose (poolIdleFire pScale 1).1 1 0 400).1.workers.length = 2
    ∧ ¬((poolClose (poolIdleFire pScale 1).1 1 0 400).1.workers.length =
          pScale.workers.length - 1) := by decide

/-- Claim C1, amended.  In a pool above its minimum, when an idle live
worker's idle timer fires, its respawn flag is disabled and its process
receives exactly one forceful kill; after the subsequent process exit the
worker is dead, no respawn is pending, the delayed-spawn event leaves it
unchanged (it is never automatically restarted) — but the pool's worker
count is unchanged: the dead worker stays in the list. -/
theorem idle_fire_kills_but_keeps_worker (p : PoolState) (i : Nat)
    (w : WorkerState) (d code now : Int)
    (hw : p.workers[i]? = some w)
    (hBusy : w.busy = false)
    (hAlive : w.procAlive = true)
    (hArm : w.idleTimer = some d)
    (hMin : p.minPool < p.workers.length)
    (hQ : p.queue = []) :
    (poolIdleFire p i).2 = 1
    ∧ (poolIdleFire p i).1.workers.length = p.workers.length
    ∧ ((poolIdleFire p i).1.workers[i]?).map WorkerState.shouldRespawn = some false
    ∧ (poolClose (poolIdleFire p i).1 i code now).1.workers.length = p.workers.length
    ∧ ((poolClose (poolIdleFire p i).1 i code now).1.workers[i]?).map
        (fun wi => (wi.procAlive, wi.respawnPending, wi.busy, wi.currentTask)) =
        some (false, false, false, none)
    ∧ (∀ wi, (poolClose (poolIdleFire p i).1 i code now).1.workers[i]? = some wi →
        spawnDoneW wi = wi) := by
  have hi : i < p.workers.length := (List.getElem?_eq_some.mp hw).1
  have hIdle : poolIdleFire p i =
      ({ p with workers :=
          p.workers.set i { w with idleTimer := none, shouldRespawn := false } }, 1) := by
    simp [poolIdleFire, hw, idleFireW, hArm, hBusy, hAlive]
  have hw1 : (p.workers.set i { w with idleTimer := none, shouldRespawn := false })[i]? =
      some { w with idleTimer := none, shouldRespawn := false } :=
    List.getElem?_set_self hi
  have hClose : poolClose (poolIdleFire p i).1 i code now =
      (poolClose
        { p with workers :=
            p.workers.set i { w with idleTimer := none, shouldRespawn := false } } i code now) := by
    rw [hIdle]
  refine ⟨by rw [hIdle], by rw [hIdle]; simp, by rw [hIdle]; simp [hw1], ?_, ?_, ?_⟩ <;>
    rw [hClose]
  all_goals {
    unfold poolClose
    simp only [hw1, hAlive]
    simp only [failCurrent, onWorkerFree, pump, hQ, pumpScan_nil_queue]
    simp only [List.length_set, hMin, List.set_set]
    simp [List.getElem?_set_self, List.getElem?_map, List.length_map,
      List.length_set, hi, hMin, hBusy, respawn, spawnDoneW]
  }

/-- Witness for amended C1 at a concrete pool. -/
theorem idle_fire_kills_but_keeps_worker_witness :
    (poolIdleFire pScale 1).2 = 1
    ∧ (poolClose (poolIdleFire pScale 1).1 1 0 400).1.workers.length = 2 := by
  have h := idle_fire_kills_but_keeps_worker pScale 1 wIdleArmed 300 0 400
    (by decide) rfl rfl rfl (by decide) rfl
  exact ⟨h.1, h.2.2.2.1.trans (by decide)⟩

theorem pumpScan_length (now tmo : Int) (ws : List WorkerState) (q : List Task) :
    (pumpScan now tmo ws q).1.length = ws.length := by
  induction ws generalizing q with
  | nil => simp [pumpScan]
  | cons w ws ih =>
    cases q with
    | nil => simp [pumpScan]
    | cons t q =>
      by_cases hb : w.busy = true
      · simp [pumpScan, hb, ih]
      · simp [pumpScan, hb, ih]

theorem pumpScan_busy_prefix (now tmo : Int) (pre : List WorkerState)
    (hpre : ∀ w ∈ pre, w.busy = true) (ws : List WorkerState) (q : List Task) :
    pumpScan now tmo (pre ++ ws) q =
      ((pre ++ (pumpScan now tmo ws q).1),
        (pumpScan now tmo ws q).2.1, (pumpScan now tmo ws q).2.2) := by
  induction pre with
  | nil => simp
  | cons w pre ih =>
    have hw : w.busy = true := hpre w (List.mem_cons_self w pre)
    have hpre' : ∀ x ∈ pre, x.busy = true := fun x hx => hpre x (List.mem_cons_of_mem w hx)
    cases q with
    | nil => simp [pumpScan_nil_queue]
    | cons t q =>
      simp only [List.cons_append, pumpScan, hw, if_true, List.append_eq]
      rw [ih hpre']

/-- A concrete dead worker, as the idle scale-down path leaves it. -/
def wDead : WorkerState :=
  { freshWorker with procAlive := false, shouldRespawn := false }

/-- A concrete pool holding a busy worker, the dead worker, and a queued
task. -/
def pDead : PoolState :=
  { minPool := 1, maxPool := 4, taskTimeoutMs := 100, idleTtlMs := 300,
    queue := [tkB], workers := [wBusy0, wDead] }

/-- Claim C10.  A worker killed by scale-down is never removed from the
pool's list and stays non-busy, so when every worker before it is busy
the next pump pass pops the head task and hands it to the dead worker,
which resolves it immediately as a failure with the not-ready error; the
worker list keeps its length, so this happens even below maxWorkers. -/
theorem dead_worker_eats_tasks (p : PoolState) (pre post : List WorkerState)
    (wd : WorkerState) (t : Task) (rest : List Task) (now : Int)
    (hws : p.workers = pre ++ wd :: post)
    (hpre : ∀ w ∈ pre, w.busy = true)
    (hdead : wd.procAlive = false)
    (hidle : wd.busy = false)
    (hq : p.queue = t :: rest) :
    (pump p now).2.head? = some (t.rid,
        { success := false, error := some workerNotReadyMsg, executionTime := 0 })
    ∧ (pump p now).1.workers.length = p.workers.length
    ∧ (pump p now).1.workers[pre.length]? = some wd := by
  have hassign : assignW wd t now p.taskTimeoutMs true =
      (wd, [(t.rid, { success := false, error := some workerNotReadyMsg,
                      executionTime := 0 })], false) := by
    simp [assignW, hdead]
  have hscan : pumpScan now p.taskTimeoutMs p.workers p.queue =
      ((pre ++ wd :: (pumpScan now p.taskTimeoutMs post rest).1),
        (pumpScan now p.taskTimeoutMs post rest).2.1,
        (t.rid, { success := false, error := some workerNotReadyMsg,
                  executionTime := 0 }) ::
          (pumpScan now p.taskTimeoutMs post rest).2.2) := by
    rw [hws, hq, pumpScan_busy_prefix now p.taskTimeoutMs pre hpre]
    simp only [pumpScan, hidle, if_neg (by simp [hidle] : ¬ wd.busy = true), hassign]
    rfl
  have hnogrow :
      ¬((pumpScan now p.taskTimeoutMs p.workers p.queue).2.1 ≠ []
        ∧ (pumpScan now p.taskTimeoutMs p.workers p.queue).1.all (fun w => w.busy)
        ∧ (pumpScan now p.taskTimeoutMs p.workers p.queue).1.length < p.maxPool) := by
    rw [hscan]
    intro hcon
    have hall := hcon.2.1
    simp only [List.all_eq_true] at hall
    have := hall wd (by simp)
    rw [hidle] at this
    cases this
  refine ⟨?_, ?_, ?_⟩
  · simp only [pump, hscan]
    rfl
  · simp only [pump, if_neg hnogrow]
    rw [hscan, hws]
    simp [pumpScan_length]
  · simp only [pump, if_neg hnogrow]
    rw [hscan]
    rw [List.getElem?_append_right (le_refl pre.length)]
    simp

/-- Witness for C10 at the concrete pool pDead. -/
theorem dead_worker_eats_tasks_witness :
    (pump pDead 60).2.head? = some (2,
      { success := false, error := some workerNotReadyMsg, executionTime := 0 })
    ∧ (pump pDead 60).1.workers[1]? = some wDead := by
  have h := dead_worker_eats_tasks pDead [wBusy0] [] wDead tkB [] 60
    rfl (by decide) rfl rfl rfl
  exact ⟨h.1, h.2.2⟩

/-- The dispatch scan as the specification words it: fold over the
workers in creation order, carrying the processed workers, the remaining
queue and the resolutions; an idle worker takes the queue head.
(Spec-side reference definition, to be compared with pumpScan.) -/
def scanSpec (now tmo : Int) (ws : List WorkerState) (q : List Task) :
    List WorkerState × List Task × List (Nat × Outcome) :=
  ws.foldl
    (fun acc w =>
      match acc.2.1 with
      | [] => (acc.1 ++ [w], [], acc.2.2)
      | t :: q' =>
        if w.busy then (acc.1 ++ [w], t :: q', acc.2.2)
        else
          let a := assignW w t now tmo true
          (acc.1 ++ [a.1], q', acc.2.2 ++ a.2.1))
    ([], q, [])

theorem scanSpec_from (now tmo : Int) (ws : List WorkerState) :
    ∀ (q : List Task) (acc : List WorkerState) (outs : List (Nat × Outcome)),
    ws.foldl
      (fun acc w =>
        match acc.2.1 with
        | [] => (acc.1 ++ [w], [], acc.2.2)
        | t :: q' =>
          if w.busy then (acc.1 ++ [w], t :: q', acc.2.2)
          else
            let a := assignW w t now tmo true
            (acc.1 ++ [a.1], q', acc.2.2 ++ a.2.1))
      (acc, q, outs) =
      (acc ++ (pumpScan now tmo ws q).1,
       (pumpScan now tmo ws q).2.1,
       outs ++ (pumpScan now tmo ws q).2.2) := by
  induction ws with
  | nil => intro q acc outs; simp [pumpScan]
  | cons w ws ih =>
    intro q acc outs
    cases q with
    | nil =>
      simp only [List.foldl_cons, ih, pumpScan_nil_queue]
      simp
    | cons t q =>
      by_cases hb : w.busy = true
      · simp only [List.foldl_cons, pumpScan, hb, if_true, ih]
        simp
      · simp only [List.foldl_cons, pumpScan, hb, if_false, ih]
        simp [hb]

theorem pumpScan_eq_scanSpec (now tmo : Int) (ws : List WorkerState) (q : List Task) :
    pumpScan now tmo ws q = scanSpec now tmo ws q := by
  rw [scanSpec, scanSpec_from]
  simp

/-- Claim C2.  One pump pass performs exactly the specified scan (the
creation-order fold that pops the queue head into each idle worker), and
afterwards creates exactly one fresh worker precisely when the remaining
queue is non-empty, every worker is busy and the pool is below maxPool;
hence the worker count grows by at most one per pump call and, when it
starts at or below maxPool, never exceeds maxPool. -/
theorem pump_dispatch_spec (p : PoolState) (now : Int) :
    (∀ (ws : List WorkerState) (q : List Task),
      pumpScan now p.taskTimeoutMs ws q = scanSpec now p.taskTimeoutMs ws q)
    ∧ (pump p now).1.queue = (pumpScan now p.taskTimeoutMs p.workers p.queue).2.1
    ∧ (pump p now).1.workers.length ≤ p.workers.length + 1
    ∧ (p.workers.length ≤ p.maxPool → (pump p now).1.workers.length ≤ p.maxPool)
    ∧ ((pump p now).1.workers.length = p.workers.length + 1 ↔
        ((pumpScan now p.taskTimeoutMs p.workers p.queue).2.1 ≠ []
         ∧ (pumpScan now p.taskTimeoutMs p.workers p.queue).1.all (fun w => w.busy)
         ∧ (pumpScan now p.taskTimeoutMs p.workers p.queue).1.length < p.maxPool))
    ∧ (((pumpScan now p.taskTimeoutMs p.workers p.queue).2.1 ≠ []
         ∧ (pumpScan now p.taskTimeoutMs p.workers p.queue).1.all (fun w => w.busy)
         ∧ (pumpScan now p.taskTimeoutMs p.workers p.queue).1.length < p.maxPool) →
        (pump p now).1.workers =
          (pumpScan now p.taskTimeoutMs p.workers p.queue).1 ++ [freshWorker]) := by
  have hLen := pumpScan_length now p.taskTimeoutMs p.workers p.queue
  have hworkers : (pump p now).1.workers =
      (if ((pumpScan now p.taskTimeoutMs p.workers p.queue).2.1 ≠ []
           ∧ (pumpScan now p.taskTimeoutMs p.workers p.queue).1.all (fun w => w.busy)
           ∧ (pumpScan now p.taskTimeoutMs p.workers p.queue).1.length < p.maxPool)
       then (pumpScan now p.taskTimeoutMs p.workers p.queue).1 ++ [freshWorker]
       else (pumpScan now p.taskTimeoutMs p.workers p.queue).1) := rfl
  have hqueue : (pump p now).1.queue =
      (pumpScan now p.taskTimeoutMs p.workers p.queue).2.1 := rfl
  by_cases hcond :
      ((pumpScan now p.taskTimeoutMs p.workers p.queue).2.1 ≠ []
       ∧ (pumpScan now p.taskTimeoutMs p.workers p.queue).1.all (fun w => w.busy)
       ∧ (pumpScan now p.taskTimeoutMs p.workers p.queue).1.length < p.maxPool)
  · have hw2 : (pump p now).1.workers =
        (pumpScan now p.taskTimeoutMs p.workers p.queue).1 ++ [freshWorker] := by
      rw [hworkers, if_pos hcond]
    have h22 := hcond.2.2
    refine ⟨pumpScan_eq_scanSpec now p.taskTimeoutMs, hqueue, ?_, ?_, ?_, fun _ => hw2⟩
    · rw [hw2]
      simp only [List.length_append, List.length_cons, List.length_nil]
      omega
    · intro hle
      rw [hw2]
      simp only [List.length_append, List.length_cons, List.length_nil]
      omega
    · rw [hw2]
      simp only [List.length_append, List.length_cons, List.length_nil]
      constructor
      · intro _
        exact hcond
      · intro _
        omega
  · have hw2 : (pump p now).1.workers =
        (pumpScan now p.taskTimeoutMs p.workers p.queue).1 := by
      rw [hworkers, if_neg hcond]
    refine ⟨pumpScan_eq_scanSpec now p.taskTimeoutMs, hqueue, ?_, ?_, ?_,
      fun hc => absurd hc hcond⟩
    · rw [hw2, hLen]
      omega
    · intro hle
      rw [hw2, hLen]
      exact hle
    · have hcond' := hcond
      rw [hLen] at hcond'
      rw [hw2, hLen]
      constructor
      · intro hfalse
        omega
      · intro hc
        exact absurd hc hcond'

/-- The rids of a list of resolutions, in order. -/
def ridsOf (outs : List (Nat × Outcome)) : List Nat := outs.map Prod.fst

/-- The rid of the worker's current task, if any. -/
def curRid (w : WorkerState) : Option Nat := w.currentTask.map Task.rid

theorem ridsOf_append (a b : List (Nat × Outcome)) :
    ridsOf (a ++ b) = ridsOf a ++ ridsOf b := by
  simp [ridsOf]

theorem stepW_shape_nonassign (parse : List Char → Option ResultJson)
    (w : WorkerState) (e : WEvent)
    (h : ∀ (t : Task) (now tmo : Int) (wo : Bool), e ≠ WEvent.assignT t now tmo wo) :
    ((stepW parse w e).2 = [] ∧ curRid (stepW parse w e).1 = curRid w)
    ∨ (∃ rc, curRid w = some rc ∧ ridsOf (stepW parse w e).2 = [rc]
        ∧ curRid (stepW parse w e).1 = none) := by
  cases e with
  | assignT t now tmo wo => exact absurd rfl (h t now tmo wo)
  | lineIn line now =>
    by_cases hc : (jsTrim line).head? ≠ some lbraceChar ∧ (jsTrim line).head? ≠ some lbrackChar
    · left; simp [stepW, handleResultLine, if_pos hc]
    · cases hp : parse (jsTrim line) with
      | none => left; simp [stepW, handleResultLine, if_neg hc, hp]
      | some parsed =>
        cases ht : w.currentTask with
        | none => left; simp [stepW, handleResultLine, if_neg hc, hp, ht]
        | some task =>
          right
          exact ⟨task.rid, by simp [curRid, ht],
            by simp [stepW, handleResultLine, if_neg hc, hp, ht, ridsOf],
            by simp [stepW, handleResultLine, if_neg hc, hp, ht, curRid]⟩
  | timeoutFire =>
    cases ha : w.currentTimeout with
    | none => left; simp [stepW, timeoutFireW, ha]
    | some dd =>
      cases ht : w.currentTask with
      | none => left; simp [stepW, timeoutFireW, ha, failCurrent, ht, curRid]
      | some task =>
        right
        exact ⟨task.rid, by simp [curRid, ht],
          by simp [stepW, timeoutFireW, ha, failCurrent, ht, ridsOf],
          by simp [stepW, timeoutFireW, ha, failCurrent, curRid]⟩
  | idleFire =>
    cases ha : w.idleTimer with
    | none => left; simp [stepW, idleFireW, ha]
    | some dd =>
      by_cases hb : w.busy = true
      · left; simp [stepW, idleFireW, ha, hb, curRid]
      · left; simp [stepW, idleFireW, ha, hb, curRid]
  | scaleDownE now ttl =>
    left
    simp [stepW, curRid, sSD_currentTask]
  | failE err =>
    cases ht : w.currentTask with
    | none => left; simp [stepW, failCurrent, ht, curRid]
    | some task =>
      right
      exact ⟨task.rid, by simp [curRid, ht],
        by simp [stepW, failCurrent, ht, ridsOf],
        by simp [stepW, failCurrent, curRid]⟩
  | respawnE =>
    left
    simp [stepW, respawn, curRid]
  | spawnDone =>
    left
    refine ⟨rfl, ?_⟩
    by_cases hp : w.respawnPending = true <;> simp [stepW, spawnDoneW, hp, curRid]

theorem runW_at_most_once (parse : List Char → Option ResultJson) :
    ∀ (events : List WEvent) (w : WorkerState),
    (assignRids events).Nodup →
    (∀ r, curRid w = some r → r ∉ assignRids events) →
    (ridsOf (runW parse w events).2).Nodup
    ∧ (∀ r ∈ ridsOf (runW parse w events).2,
        curRid w = some r ∨ r ∈ assignRids events) := by
  intro events
  induction events with
  | nil =>
    intro w _ _
    exact ⟨List.nodup_nil, by simp [runW, ridsOf]⟩
  | cons e es ih =>
    intro w hA hCur
    have hrun : runW parse w (e :: es) =
        ((runW parse (stepW parse w e).1 es).1,
          (stepW parse w e).2 ++ (runW parse (stepW parse w e).1 es).2) := rfl
    by_cases he : ∃ (t : Task) (now tmo : Int) (wo : Bool), e = WEvent.assignT t now tmo wo
    · obtain ⟨t, now, tmo, wo, rfl⟩ := he
      have hAR : assignRids (WEvent.assignT t now tmo wo :: es) =
          t.rid :: assignRids es := rfl
      have hAt : t.rid ∉ assignRids es := by
        rw [hAR] at hA
        exact (List.nodup_cons.mp hA).1
      have hA2 : (assignRids es).Nodup := by
        rw [hAR] at hA
        exact (List.nodup_cons.mp hA).2
      by_cases halive : w.procAlive = true
      · cases wo with
        | true =>
          have ho : (stepW parse w (WEvent.assignT t now tmo true)).2 = [] := by
            simp [stepW, assignW, halive]
          have hcur1 : curRid (stepW parse w (WEvent.assignT t now tmo true)).1 =
              some t.rid := by
            simp [stepW, assignW, halive, curRid]
          have hCur1 : ∀ r, curRid (stepW parse w (WEvent.assignT t now tmo true)).1 =
              some r → r ∉ assignRids es := by
            intro r hr
            rw [hcur1] at hr
            cases hr
            exact hAt
          obtain ⟨hnd2, hprov2⟩ := ih _ hA2 hCur1
          rw [hrun]
          refine ⟨?_, ?_⟩
          · rw [ridsOf_append, ho]
            exact hnd2
          · intro r hr
            rw [ridsOf_append, ho] at hr
            rcases List.mem_append.mp hr with h1 | h2
            · simp [ridsOf] at h1
            · rcases hprov2 r h2 with hcu | hes
              · rw [hcur1] at hcu
                have hrt := Option.some.inj hcu
                subst hrt
                exact Or.inr (by rw [hAR]; exact List.mem_cons_self _ _)
              · exact Or.inr (by rw [hAR]; exact List.mem_cons_of_mem _ hes)
        | false =>
          have ho : (stepW parse w (WEvent.assignT t now tmo false)).2 =
              [(t.rid, { success := false, error := some stdinWriteFailedMsg,
                         executionTime := 0 })] := by
            simp [stepW, assignW, halive, failCurrent]
          have hcur1 : curRid (stepW parse w (WEvent.assignT t now tmo false)).1 =
              none := by
            simp [stepW, assignW, halive, failCurrent, curRid]
          have hCur1 : ∀ r, curRid (stepW parse w (WEvent.assignT t now tmo false)).1 =
              some r → r ∉ assignRids es := by
            intro r hr
            rw [hcur1] at hr
            cases hr
          obtain ⟨hnd2, hprov2⟩ := ih _ hA2 hCur1
          have hnotin : t.rid ∉
              ridsOf (runW parse (stepW parse w (WEvent.assignT t now tmo false)).1 es).2 := by
            intro hmem
            rcases hprov2 _ hmem with hcu | hes
            · rw [hcur1] at hcu; cases hcu
            · exact hAt hes
          rw [hrun]
          refine ⟨?_, ?_⟩
          · rw [ridsOf_append, ho]
            exact List.nodup_cons.mpr ⟨hnotin, hnd2⟩
          · intro r hr
            rw [ridsOf_append, ho] at hr
            rcases List.mem_append.mp hr with h1 | h2
            · have hrt : r = t.rid := by simpa [ridsOf] using h1
              subst hrt
              exact Or.inr (by rw [hAR]; exact List.mem_cons_self _ _)
            · rcases hprov2 r h2 with hcu | hes
              · rw [hcur1] at hcu; cases hcu
              · exact Or.inr (by rw [hAR]; exact List.mem_cons_of_mem _ hes)
      · have ho : (stepW parse w (WEvent.assignT t now tmo wo)).2 =
            [(t.rid, { success := false, error := some workerNotReadyMsg,
                       executionTime := 0 })] := by
          simp [stepW, assignW, halive]
        have hw1 : (stepW parse w (WEvent.assignT t now tmo wo)).1 = w := by
          simp [stepW, assignW, halive]
        have hCur1 : ∀ r, curRid (stepW parse w (WEvent.assignT t now tmo wo)).1 =
            some r → r ∉ assignRids es := by
          intro r hr
          rw [hw1] at hr
          intro hmem
          exact hCur r hr (by rw [hAR]; exact List.mem_cons_of_mem _ hmem)
        obtain ⟨hnd2, hprov2⟩ := ih _ hA2 hCur1
        have hnotin : t.rid ∉
            ridsOf (runW parse (stepW parse w (WEvent.assignT t now tmo wo)).1 es).2 := by
          intro hmem
          rcases hprov2 _ hmem with hcu | hes
          · rw [hw1] at hcu
            exact hCur _ hcu (by rw [hAR]; exact List.mem_cons_self _ _)
          · exact hAt hes
        rw [hrun]
        refine ⟨?_, ?_⟩
        · rw [ridsOf_append, ho]
          exact List.nodup_cons.mpr ⟨hnotin, hnd2⟩
        · intro r hr
          rw [ridsOf_append, ho] at hr
          rcases List.mem_append.mp hr with h1 | h2
          · have hrt : r = t.rid := by simpa [ridsOf] using h1
            subst hrt
            exact Or.inr (by rw [hAR]; exact List.mem_cons_self _ _)
          · rcases hprov2 r h2 with hcu | hes
            · rw [hw1] at hcu
              exact Or.inl hcu
            · exact Or.inr (by rw [hAR]; exact List.mem_cons_of_mem _ hes)
    · push_neg at he
      have hne : assignRids (e :: es) = assignRids es := by
        cases e with
        | assignT t now tmo wo => exact absurd rfl (he t now tmo wo)
        | lineIn l n => rfl
        | timeoutFire => rfl
        | idleFire => rfl
        | scaleDownE n ttl => rfl
        | failE err => rfl
        | respawnE => rfl
        | spawnDone => rfl
      have hA2 : (assignRids es).Nodup := by rw [hne] at hA; exact hA
      have hCur2 : ∀ r, curRid w = some r → r ∉ assignRids es := by
        intro r hr
        have := hCur r hr
        rw [hne] at this
        exact this
      rcases stepW_shape_nonassign parse w e he with ⟨ho, hcu⟩ | ⟨rc, hwrc, ho, hcu⟩
      · have hCur1 : ∀ r, curRid (stepW parse w e).1 = some r → r ∉ assignRids es := by
          intro r hr
          rw [hcu] at hr
          exact hCur2 r hr
        obtain ⟨hnd2, hprov2⟩ := ih _ hA2 hCur1
        rw [hrun]
        refine ⟨?_, ?_⟩
        · rw [ridsOf_append, ho]
          exact hnd2
        · intro r hr
          rw [ridsOf_append, ho] at hr
          rcases List.mem_append.mp hr with h1 | h2
          · simp [ridsOf] at h1
          · rcases hprov2 r h2 with hc2 | hes
            · rw [hcu] at hc2
              exact Or.inl hc2
            · exact Or.inr (by rw [hne]; exact hes)
      · have hCur1 : ∀ r, curRid (stepW parse w e).1 = some r → r ∉ assignRids es := by
          intro r hr
          rw [hcu] at hr
          cases hr
        obtain ⟨hnd2, hprov2⟩ := ih _ hA2 hCur1
        have hnotin : rc ∉ ridsOf (runW parse (stepW parse w e).1 es).2 := by
          intro hmem
          rcases hprov2 _ hmem with hc2 | hes
          · rw [hcu] at hc2; cases hc2
          · exact hCur2 rc hwrc hes
        rw [hrun]
        refine ⟨?_, ?_⟩
        · rw [ridsOf_append, ho]
          exact List.nodup_cons.mpr ⟨hnotin, hnd2⟩
        · intro r hr
          rw [ridsOf_append, ho] at hr
          rcases List.mem_append.mp hr with h1 | h2
          · rw [List.mem_singleton] at h1
            subst h1
            exact Or.inl hwrc
          · rcases hprov2 r h2 with hc2 | hes
            · rw [hcu] at hc2; cases hc2
            · exact Or.inr (by rw [hne]; exact hes)

/-- Claim C6.  Over any sequence of worker events whose submissions carry
pairwise distinct rids, a worker starting fresh resolves each rid at most
once (the resolved-rid trace has no duplicates); moreover every
resolution path detaches the task from the worker before resolving:
failCurrent always leaves no current task, and a result line that
resolves anything leaves no current task. -/
theorem submissions_resolve_at_most_once (parse : List Char → Option ResultJson)
    (events : List WEvent) (h : (assignRids events).Nodup) :
    (ridsOf (runW parse freshWorker events).2).Nodup
    ∧ (∀ (w : WorkerState) (err : String), (failCurrent w err).1.currentTask = none)
    ∧ (∀ (w : WorkerState) (line : List Char) (now : Int),
        (handleResultLine parse w line now).2.1 ≠ [] →
        (handleResultLine parse w line now).1.currentTask = none) := by
  refine ⟨(runW_at_most_once parse events freshWorker h
    (by simp [curRid, freshWorker])).1, fun w err => rfl, ?_⟩
  intro w line now hne
  by_cases hc : (jsTrim line).head? ≠ some lbraceChar ∧ (jsTrim line).head? ≠ some lbrackChar
  · exact absurd (by simp [handleResultLine, if_pos hc]) hne
  · cases hp : parse (jsTrim line) with
    | none => exact absurd (by simp [handleResultLine, if_neg hc, hp]) hne
    | some parsed =>
      cases ht : w.currentTask with
      | none => exact absurd (by simp [handleResultLine, if_neg hc, hp, ht]) hne
      | some task => simp [handleResultLine, if_neg hc, hp, ht]

/-- A concrete event sequence with distinct submission rids, used as the
C6 witness. -/
def events0 : List WEvent :=
  [WEvent.assignT tkA 0 100 true, WEvent.lineIn resLine0.data 5,
   WEvent.assignT tkB 6 100 true, WEvent.timeoutFire]

/-- Witness for C6 at the concrete event sequence events0. -/
theorem submissions_resolve_at_most_once_witness :
    (ridsOf (runW parse0 freshWorker events0).2).Nodup
    ∧ (failCurrent w0 taskTimeoutMsg).1.currentTask = none := by
  have h := submissions_resolve_at_most_once parse0 events0 (by decide)
  exact ⟨h.1, h.2.1 w0 taskTimeoutMsg⟩

/-- Witness for C2 at a concrete saturated pool: pHot has its single
worker busy, one queued task and room below maxPool, so one pump pass
adds exactly one fresh worker. -/
theorem pump_dispatch_spec_witness :
    (pump pHot 60).1.workers.length ≤ pHot.workers.length + 1
    ∧ (pump pHot 60).1.workers.length ≤ pHot.maxPool
    ∧ (pump pHot 60).1.workers =
        (pumpScan 60 pHot.taskTimeoutMs pHot.workers pHot.queue).1 ++ [freshWorker] := by
  have h := pump_dispatch_spec pHot 60
  exact ⟨h.2.2.1, h.2.2.2.1 (by decide), h.2.2.2.2.2 (by decide)⟩

end SQ
